import Mathlib

/-!
Shallow embedding of `src/share/dss/dss.go` (distributed Schnorr signatures).

The Go code is generic over a `Suite` (group arithmetic, hashing, marshalling)
and delegates to external collaborators (`share.PubPoly`, `share.RecoverSecret`,
`schnorr.Sign`/`Verify`, `share.PriShare.Hash`).  Those collaborators are kept
abstract here as fields of `SuiteOps`; the control flow, state layout and
state mutations of `dss.go` itself are embedded statement by statement.

Byte strings (`[]byte`) are modelled as `List Nat`; Go `int` indices as `Int`
(so that negative submitted indices are representable, as they are in Go).
-/

set_option linter.unusedSectionVars false
set_option linter.unreachableTactic false
set_option linter.unusedTactic false
set_option linter.unnecessarySeqFocus false

namespace DSSGo

/-- Byte strings (`[]byte` in Go). -/
abbrev Bytes := List Nat

/-- `share.PriShare`: a private share, an index `I` paired with a scalar `V`. -/
structure PriShare (Scalar : Type) where
  I : Int
  V : Scalar
  deriving DecidableEq

/-- The abstract operations the Go code obtains from its `Suite` and from the
collaborator packages (`share`, `schnorr`).  `smul s p` is `Point().Mul(s, p)`
(`smul s base` when the Go code passes `nil`); `hashToScalar` is
`Scalar().SetBytes(sha512(...))`; `hashBytes` is `suite.Hash()` applied to a
byte stream; `priShareHash` is `share.PriShare.Hash`; `schnorrSign` mirrors
Go's `([]byte, error)` result, the `Option Unit` being the error slot;
`pubPolyEval base commits i` is `share.NewPubPoly(suite, base, commits).Eval(i).V`;
`recoverSecret shares t n` is `share.RecoverSecret(suite, shares, t, n)`. -/
structure SuiteOps (Scalar Point : Type) where
  smul : Scalar → Point → Point
  addP : Point → Point → Point
  base : Point
  mulS : Scalar → Scalar → Scalar
  addS : Scalar → Scalar → Scalar
  marshalP : Point → Bytes
  marshalS : Scalar → Bytes
  hashToScalar : Bytes → Scalar
  hashBytes : Bytes → Bytes
  priShareHash : PriShare Scalar → Bytes
  schnorrSign : Scalar → Bytes → Bytes × Option Unit
  schnorrVerify : Point → Bytes → Bytes → Bool
  pubPolyEval : Point → List Point → Int → Point
  recoverSecret : List (PriShare Scalar) → Int → Int → Option Scalar

/-- `DistKeyShare`: this node's private share plus the ordered public
commitment list of the distributed key. -/
structure DistKeyShare (Scalar Point : Type) where
  priShare : PriShare Scalar
  commitments : List Point
  deriving DecidableEq

/-- `PartialSig`: the partial signature exchanged between participants. -/
structure PartialSig (Scalar : Type) where
  Partial : PriShare Scalar
  SessionID : Bytes
  Signature : Bytes
  deriving DecidableEq

/-- The `DSS` session state.  `partials` is the ordered accepted-share list,
`partialsIdx` the accepted-index set (`map[int]bool` in Go, modelled as the
list of keys mapped to `true`), `signed` the one-shot local-issuance flag. -/
structure DSS (Scalar Point : Type) where
  secret : Scalar
  public : Point
  index : Int
  participants : List Point
  T : Int
  long : DistKeyShare Scalar Point
  random : DistKeyShare Scalar Point
  msg : Bytes
  partials : List (PriShare Scalar)
  partialsIdx : List Int
  signed : Bool
  sessionID : Bytes
  deriving DecidableEq

variable {Scalar Point : Type} [DecidableEq Scalar] [DecidableEq Point] [Inhabited Point]

/-- Result of `findPub`.  Go's `list[i]` for a negative `i` is a runtime
out-of-bounds panic, which the guard `if i >= len(list)` does not prevent;
`outOfBoundsPanic` records exactly that crash. -/
inductive FindPubResult (Point : Type) where
  | outOfBoundsPanic
  | notFound
  | found (p : Point)
  deriving DecidableEq

/-- `findPub(list, i)`: returns `(nil, false)` when `i >= len(list)`, and
otherwise evaluates `list[i]`, which panics when `i < 0`. -/
def findPub (list : List Point) (i : Int) : FindPubResult Point :=
  if _hlen : (list.length : Int) ≤ i then .notFound
  else if hpos : 0 ≤ i then .found (list.get ⟨i.toNat, by omega⟩)
  else .outOfBoundsPanic

/-- The loop in `NewDSS`: position of the first participant equal to `public`
(`p.Equal(public)` with `break` on the first hit). -/
def findPubIdx (public : Point) : List Point → Option Nat
  | [] => none
  | p :: rest => if p = public then some 0 else (findPubIdx public rest).map (· + 1)

/-- `sessionID(s, a, b)`: hash of the marshalled commitments of `a` followed by
the marshalled commitments of `b`. -/
def sessionID (ops : SuiteOps Scalar Point) (a b : DistKeyShare Scalar Point) : Bytes :=
  ops.hashBytes ((a.commitments.map ops.marshalP).flatten ++
    (b.commitments.map ops.marshalP).flatten)

/-- `NewDSS`: derives the own public point `secret·base`, scans the participant
list for it (error when absent), and builds the fresh session state. -/
def NewDSS (ops : SuiteOps Scalar Point) (secret : Scalar) (participants : List Point)
    (long random : DistKeyShare Scalar Point) (msg : Bytes) (T : Int) :
    Option (DSS Scalar Point) :=
  let public := ops.smul secret ops.base
  match findPubIdx public participants with
  | none => none
  | some i =>
      some { secret := secret, public := public, index := (i : Int),
             participants := participants, T := T, long := long, random := random,
             msg := msg, partials := [], partialsIdx := [], signed := false,
             sessionID := sessionID ops long random }

/-- `(d *DSS) hashSig()`: the shared Schnorr challenge
`H(R || A || msg)` with `R = random.Commitments()[0]`, `A = long.Commitments()[0]`
(Go indexes `[0]` unconditionally; `headI` models it for nonempty lists). -/
def DSS.hashSig (ops : SuiteOps Scalar Point) (d : DSS Scalar Point) : Scalar :=
  ops.hashToScalar (ops.marshalP d.random.commitments.headI ++
    ops.marshalP d.long.commitments.headI ++ d.msg)

/-- `(ps *PartialSig) Hash(s)`: hash of the share's own hash followed by the
session id (the authentication-tag message; the tag itself is not covered). -/
def PartialSig.Hash (ops : SuiteOps Scalar Point) (ps : PartialSig Scalar) : Bytes :=
  ops.hashBytes (ops.priShareHash ps.Partial ++ ps.SessionID)

/-- `(d *DSS) PartialSig()`: computes `V = hash·alpha + beta` at the own index,
signs the partial's hash with the own long-term secret, and — guarded only by
the `signed` flag, and regardless of the signing error — records the own share
into `partialsIdx`/`partials` on the first call.  Returns
`((the message, the signing error), the updated state)`. -/
def DSS.PartialSig (ops : SuiteOps Scalar Point) (d : DSS Scalar Point) :
    (DSSGo.PartialSig Scalar × Option Unit) × DSS Scalar Point :=
  let alpha := d.long.priShare.V
  let beta := d.random.priShare.V
  let hash := d.hashSig ops
  let right := ops.mulS hash alpha
  let part : PriShare Scalar := { V := ops.addS right beta, I := d.index }
  let ps0 : DSSGo.PartialSig Scalar :=
    { Partial := part, SessionID := d.sessionID, Signature := [] }
  let sg := ops.schnorrSign d.secret (ps0.Hash ops)
  let ps : DSSGo.PartialSig Scalar := { ps0 with Signature := sg.1 }
  let d' := if d.signed then d
            else { d with partialsIdx := d.index :: d.partialsIdx,
                          partials := d.partials ++ [part],
                          signed := true }
  ((ps, sg.2), d')

/-- The errors `ProcessPartialSig` can produce, in source order, plus the
runtime crash of `findPub` on a negative index. -/
inductive ProcErr where
  | outOfBoundsPanic
  | invalidIndex
  | invalidSignature
  | sessionMismatch
  | alreadyReceived
  | invalidPartial
  deriving DecidableEq

/-- The success mutation of `ProcessPartialSig`: insert the index into the
accepted set and append the share to the accepted list. -/
def acceptState (d : DSS Scalar Point) (ps : PartialSig Scalar) : DSS Scalar Point :=
  { d with partialsIdx := ps.Partial.I :: d.partialsIdx,
           partials := d.partials ++ [ps.Partial] }

/-- `(d *DSS) ProcessPartialSig(ps)`: the five checks in source order, each
early `return` leaving the receiver exactly as it was at that point (no field
is written before the final two statements).  The result pairs the error slot
with the state of the receiver when the call returns. -/
def DSS.ProcessPartialSig (ops : SuiteOps Scalar Point) (d : DSS Scalar Point)
    (ps : DSSGo.PartialSig Scalar) : Option ProcErr × DSS Scalar Point :=
  match findPub d.participants ps.Partial.I with
  | .outOfBoundsPanic => (some .outOfBoundsPanic, d)
  | .notFound => (some .invalidIndex, d)
  | .found public =>
      if ops.schnorrVerify public (ps.Hash ops) ps.Signature = false then
        (some .invalidSignature, d)
      else if ps.SessionID ≠ d.sessionID then
        (some .sessionMismatch, d)
      else if ps.Partial.I ∈ d.partialsIdx then
        (some .alreadyReceived, d)
      else
        let hash := d.hashSig ops
        let idx := ps.Partial.I
        let randShareV := ops.pubPolyEval ops.base d.random.commitments idx
        let longShareV := ops.pubPolyEval ops.base d.long.commitments idx
        let right := ops.addP randShareV (ops.smul hash longShareV)
        let left := ops.smul ps.Partial.V ops.base
        if left ≠ right then (some .invalidPartial, d)
        else (none, acceptState d ps)

/-- `(d *DSS) EnoughPartialSig()`: `len(d.partials) >= d.T`. -/
def DSS.EnoughPartialSig (d : DSS Scalar Point) : Bool :=
  decide (d.T ≤ (d.partials.length : Int))

/-- Errors of `Signature`. -/
inductive SigErr where
  | notEnough
  | recoverErr
  deriving DecidableEq

/-- `(d *DSS) Signature()`: threshold guard, secret recovery over the accepted
shares, then `RandomPublic || gamma` — the marshalled 0th ephemeral commitment
followed by the marshalled recovered scalar.  Touches no session field. -/
def DSS.Signature (ops : SuiteOps Scalar Point) (d : DSS Scalar Point) :
    Except SigErr Bytes :=
  if d.EnoughPartialSig = false then .error .notEnough
  else
    match ops.recoverSecret d.partials d.T (d.participants.length : Int) with
    | none => .error .recoverErr
    | some gamma =>
        .ok (ops.marshalP d.random.commitments.headI ++ ops.marshalS gamma)

/-- An operation on a session: local issuance or processing a submission. -/
inductive Op (Scalar : Type) where
  | issue
  | process (ps : PartialSig Scalar)

/-- Whether an operation is a local issuance. -/
def Op.isIssue : Op Scalar → Bool
  | .issue => true
  | .process _ => false

/-- Run a sequence of operations on a session, keeping the state each
operation leaves behind (errors included, as the Go methods mutate the
receiver in place). -/
def runOps (ops : SuiteOps Scalar Point) (d : DSS Scalar Point) :
    List (Op Scalar) → DSS Scalar Point
  | [] => d
  | .issue :: rest => runOps ops (d.PartialSig ops).2 rest
  | .process ps :: rest => runOps ops (d.ProcessPartialSig ops ps).2 rest

/-- A small concrete suite over the integers, used to evaluate the embedding
on explicit inputs: points and scalars are integers, the base point is `1`
(so `smul s base = s`), marshalling is one byte per value, both hashes are
trivial but injective on the inputs used, the tag scheme signs by prepending
the secret and verifies against the public value (sound here since
`public = secret·1 = secret`), the public polynomials are constant (their 0th
commitment), and recovery sums the accepted responses. -/
def opsInt : SuiteOps Int Int where
  smul := fun a p => a * p
  addP := fun p q => p + q
  base := 1
  mulS := fun a b => a * b
  addS := fun a b => a + b
  marshalP := fun p => [p.natAbs]
  marshalS := fun s => [s.natAbs]
  hashToScalar := fun l => (l.sum : Int)
  hashBytes := fun l => l
  priShareHash := fun p => [p.I.natAbs, p.V.natAbs]
  schnorrSign := fun s m => (s.natAbs :: m, none)
  schnorrVerify := fun p m sig => sig == p.natAbs :: m
  pubPolyEval := fun _ commits _ => commits.headI
  recoverSecret := fun shares _ _ => some (shares.map PriShare.V).sum

/-- The concrete suite with a tag signer that always reports an error. -/
def opsIntFail : SuiteOps Int Int :=
  { opsInt with schnorrSign := fun _ _ => ([], some ()) }

/-- A concrete fresh session over `opsInt`: one participant with public point
`2`, own secret `2`, long-term share `3` (commitment `[3]`), ephemeral share
`4` (commitment `[4]`), empty message, threshold `1`. -/
def dEx : DSS Int Int :=
  { secret := 2, public := 2, index := 0, participants := [2], T := 1,
    long := ⟨⟨0, 3⟩, [3]⟩, random := ⟨⟨0, 4⟩, [4]⟩, msg := [],
    partials := [], partialsIdx := [], signed := false,
    sessionID := [3, 4] }

/-- The partial signature `dEx` itself issues (valid for `dEx`). -/
def psEx : PartialSig Int := ((dEx.PartialSig opsInt).1).1

/-- A submission carrying a negative index. -/
def psNeg : PartialSig Int :=
  { Partial := ⟨-1, 25⟩, SessionID := [3, 4], Signature := [2, 1, 25, 3, 4] }

/-- Check 1 of `ProcessPartialSig`: the claimed index addresses the
participant registry. -/
def checkIndex (d : DSS Scalar Point) (ps : PartialSig Scalar) : Prop :=
  0 ≤ ps.Partial.I ∧ ps.Partial.I < (d.participants.length : Int)

/-- The registry entry at a (in-range) index. -/
def pubOf (d : DSS Scalar Point) (i : Int) : Point :=
  d.participants.getD i.toNat default

/-- Check 2: the authentication tag verifies under the registry entry at the
claimed index, over the partial's hash. -/
def checkSig (ops : SuiteOps Scalar Point) (d : DSS Scalar Point)
    (ps : PartialSig Scalar) : Prop :=
  ops.schnorrVerify (pubOf d ps.Partial.I) (ps.Hash ops) ps.Signature = true

/-- Check 3: the claimed session id byte-equals this session's id. -/
def checkSession (d : DSS Scalar Point) (ps : PartialSig Scalar) : Prop :=
  ps.SessionID = d.sessionID

/-- Check 4: the claimed index was not already accepted. -/
def checkNotDup (d : DSS Scalar Point) (ps : PartialSig Scalar) : Prop :=
  ps.Partial.I ∉ d.partialsIdx

/-- Check 5, the algebraic validity identity:
`response·base = (ephemeral poly at index) + challenge·(long-term poly at index)`. -/
def checkAlgebra (ops : SuiteOps Scalar Point) (d : DSS Scalar Point)
    (ps : PartialSig Scalar) : Prop :=
  ops.smul ps.Partial.V ops.base =
    ops.addP (ops.pubPolyEval ops.base d.random.commitments ps.Partial.I)
      (ops.smul (d.hashSig ops) (ops.pubPolyEval ops.base d.long.commitments ps.Partial.I))

instance (d : DSS Scalar Point) (ps : PartialSig Scalar) : Decidable (checkIndex d ps) := by
  unfold checkIndex; infer_instance

instance (ops : SuiteOps Scalar Point) (d : DSS Scalar Point) (ps : PartialSig Scalar) :
    Decidable (checkSig ops d ps) := by
  unfold checkSig; infer_instance

instance (d : DSS Scalar Point) (ps : PartialSig Scalar) : Decidable (checkSession d ps) := by
  unfold checkSession; infer_instance

instance (d : DSS Scalar Point) (ps : PartialSig Scalar) : Decidable (checkNotDup d ps) := by
  unfold checkNotDup; infer_instance

instance (ops : SuiteOps Scalar Point) (d : DSS Scalar Point) (ps : PartialSig Scalar) :
    Decidable (checkAlgebra ops d ps) := by
  unfold checkAlgebra; infer_instance

theorem findPub_eq_notFound (list : List Point) (i : Int)
    (h : (list.length : Int) ≤ i) : findPub list i = .notFound := by
  unfold findPub
  rw [dif_pos h]

theorem findPub_eq_oob (list : List Point) (i : Int) (h : i < 0) :
    findPub list i = .outOfBoundsPanic := by
  unfold findPub
  rw [dif_neg (by omega), dif_neg (by omega)]

theorem findPub_eq_found (list : List Point) (i : Int) (h0 : 0 ≤ i)
    (hl : i < (list.length : Int)) :
    findPub list i = .found (list.getD i.toNat default) := by
  unfold findPub
  rw [dif_neg (by omega), dif_pos h0]
  congr 1
  rw [List.getD_eq_getElem list default (by omega)]
  simp

theorem findPubIdx_eq_none_iff (public : Point) (l : List Point) :
    findPubIdx public l = none ↔ public ∉ l := by
  induction l with
  | nil => simp [findPubIdx]
  | cons p rest ih =>
    by_cases h : p = public
    · simp [findPubIdx, h]
    · simp only [findPubIdx, if_neg h, Option.map_eq_none', ih, List.mem_cons]
      constructor
      · intro hn hmem
        rcases hmem with hmem | hmem
        · exact h hmem.symm
        · exact hn hmem
      · intro hn hmem
        exact hn (Or.inr hmem)

theorem findPubIdx_spec (public : Point) :
    ∀ (l : List Point) (k : Nat), findPubIdx public l = some k →
      ∃ hk : k < l.length, l.get ⟨k, hk⟩ = public ∧
        ∀ j (hj : j < l.length), j < k → l.get ⟨j, hj⟩ ≠ public := by
  intro l
  induction l with
  | nil => intro k h; simp [findPubIdx] at h
  | cons p rest ih =>
    intro k h
    by_cases hp : p = public
    · rw [findPubIdx, if_pos hp] at h
      cases h
      exact ⟨Nat.succ_pos _, hp, fun j hj hj0 => absurd hj0 (Nat.not_lt_zero j)⟩
    · rw [findPubIdx, if_neg hp] at h
      cases hrest : findPubIdx public rest with
      | none => rw [hrest] at h; simp at h
      | some k0 =>
        rw [hrest] at h
        simp only [Option.map_some'] at h
        cases h
        obtain ⟨hk0, hget, hfirst⟩ := ih k0 hrest
        refine ⟨Nat.succ_lt_succ hk0, hget, ?_⟩
        intro j hj hj0
        cases j with
        | zero => simpa using hp
        | succ j0 =>
          have hj0' : j0 < rest.length := Nat.lt_of_succ_lt_succ hj
          simpa using hfirst j0 hj0' (Nat.lt_of_succ_lt_succ hj0)

theorem NewDSS_fields (ops : SuiteOps Scalar Point) (secret : Scalar)
    (participants : List Point) (long random : DistKeyShare Scalar Point)
    (msg : Bytes) (T : Int) (d0 : DSS Scalar Point)
    (h : NewDSS ops secret participants long random msg T = some d0) :
    ∃ k, findPubIdx (ops.smul secret ops.base) participants = some k ∧
      d0 = { secret := secret, public := ops.smul secret ops.base, index := (k : Int),
             participants := participants, T := T, long := long, random := random,
             msg := msg, partials := [], partialsIdx := [], signed := false,
             sessionID := sessionID ops long random } := by
  unfold NewDSS at h
  cases hf : findPubIdx (ops.smul secret ops.base) participants with
  | none => simp only [hf] at h; exact Option.noConfusion h
  | some k =>
    simp only [hf] at h
    exact ⟨k, rfl, (Option.some_inj.mp h).symm⟩

theorem ProcessPartialSig_notFound (ops : SuiteOps Scalar Point) (d : DSS Scalar Point)
    (ps : PartialSig Scalar)
    (hf : findPub d.participants ps.Partial.I = .notFound) :
    d.ProcessPartialSig ops ps = (some .invalidIndex, d) := by
  unfold DSS.ProcessPartialSig
  rw [hf]

theorem ProcessPartialSig_oob (ops : SuiteOps Scalar Point) (d : DSS Scalar Point)
    (ps : PartialSig Scalar)
    (hf : findPub d.participants ps.Partial.I = .outOfBoundsPanic) :
    d.ProcessPartialSig ops ps = (some .outOfBoundsPanic, d) := by
  unfold DSS.ProcessPartialSig
  rw [hf]

theorem ProcessPartialSig_found (ops : SuiteOps Scalar Point) (d : DSS Scalar Point)
    (ps : PartialSig Scalar) (public : Point)
    (hf : findPub d.participants ps.Partial.I = .found public) :
    d.ProcessPartialSig ops ps =
      if ops.schnorrVerify public (ps.Hash ops) ps.Signature = false then
        (some .invalidSignature, d)
      else if ps.SessionID ≠ d.sessionID then (some .sessionMismatch, d)
      else if ps.Partial.I ∈ d.partialsIdx then (some .alreadyReceived, d)
      else if ops.smul ps.Partial.V ops.base ≠
          ops.addP (ops.pubPolyEval ops.base d.random.commitments ps.Partial.I)
            (ops.smul (d.hashSig ops)
              (ops.pubPolyEval ops.base d.long.commitments ps.Partial.I)) then
        (some .invalidPartial, d)
      else (none, acceptState d ps) := by
  unfold DSS.ProcessPartialSig
  rw [hf]

theorem ProcessPartialSig_cases (ops : SuiteOps Scalar Point) (d : DSS Scalar Point)
    (ps : PartialSig Scalar) (h0 : 0 ≤ ps.Partial.I) :
    (¬ checkIndex d ps → d.ProcessPartialSig ops ps = (some .invalidIndex, d)) ∧
    (checkIndex d ps → ¬ checkSig ops d ps →
      d.ProcessPartialSig ops ps = (some .invalidSignature, d)) ∧
    (checkIndex d ps → checkSig ops d ps → ¬ checkSession d ps →
      d.ProcessPartialSig ops ps = (some .sessionMismatch, d)) ∧
    (checkIndex d ps → checkSig ops d ps → checkSession d ps → ¬ checkNotDup d ps →
      d.ProcessPartialSig ops ps = (some .alreadyReceived, d)) ∧
    (checkIndex d ps → checkSig ops d ps → checkSession d ps → checkNotDup d ps →
      ¬ checkAlgebra ops d ps → d.ProcessPartialSig ops ps = (some .invalidPartial, d)) ∧
    (checkIndex d ps → checkSig ops d ps → checkSession d ps → checkNotDup d ps →
      checkAlgebra ops d ps → d.ProcessPartialSig ops ps = (none, acceptState d ps)) := by
  by_cases hI : checkIndex d ps
  · have hP := ProcessPartialSig_found ops d ps (pubOf d ps.Partial.I)
      (findPub_eq_found _ _ hI.1 hI.2)
    unfold checkSig checkSession checkNotDup checkAlgebra
    by_cases h2 : ops.schnorrVerify (pubOf d ps.Partial.I) (ps.Hash ops) ps.Signature = true
    · by_cases h3 : ps.SessionID = d.sessionID
      · by_cases h4 : ps.Partial.I ∈ d.partialsIdx
        · have hQ : d.ProcessPartialSig ops ps = (some .alreadyReceived, d) := by
            rw [hP]; simp [h2, h3, h4]
          exact ⟨fun hc => absurd hI hc, fun _ hc => absurd h2 hc,
            fun _ _ hc => absurd h3 hc, fun _ _ _ _ => hQ,
            fun _ _ _ hnd _ => absurd h4 hnd, fun _ _ _ hnd => absurd h4 hnd⟩
        · by_cases h5 : ops.smul ps.Partial.V ops.base =
              ops.addP (ops.pubPolyEval ops.base d.random.commitments ps.Partial.I)
                (ops.smul (d.hashSig ops)
                  (ops.pubPolyEval ops.base d.long.commitments ps.Partial.I))
          · have hQ : d.ProcessPartialSig ops ps = (none, acceptState d ps) := by
              rw [hP]; simp [h2, h3, h4, h5]
            exact ⟨fun hc => absurd hI hc, fun _ hc => absurd h2 hc,
              fun _ _ hc => absurd h3 hc, fun _ _ _ hc => absurd (not_not.mp hc) h4,
              fun _ _ _ _ hc => absurd h5 hc, fun _ _ _ _ _ => hQ⟩
          · have hQ : d.ProcessPartialSig ops ps = (some .invalidPartial, d) := by
              rw [hP]; simp [h2, h3, h4, h5]
            exact ⟨fun hc => absurd hI hc, fun _ hc => absurd h2 hc,
              fun _ _ hc => absurd h3 hc, fun _ _ _ hc => absurd (not_not.mp hc) h4,
              fun _ _ _ _ _ => hQ, fun _ _ _ _ hc => absurd hc h5⟩
      · have hQ : d.ProcessPartialSig ops ps = (some .sessionMismatch, d) := by
          rw [hP]; simp [h2, h3]
        exact ⟨fun hc => absurd hI hc, fun _ hc => absurd h2 hc,
          fun _ _ _ => hQ, fun _ _ hc => absurd hc h3,
          fun _ _ hc => absurd hc h3, fun _ _ hc => absurd hc h3⟩
    · have hQ : d.ProcessPartialSig ops ps = (some .invalidSignature, d) := by
        simp only [Bool.not_eq_true] at h2
        rw [hP]; simp [h2]
      exact ⟨fun hc => absurd hI hc, fun _ _ => hQ,
        fun _ hc => absurd hc h2, fun _ hc => absurd hc h2,
        fun _ hc => absurd hc h2, fun _ hc => absurd hc h2⟩
  · have hP : d.ProcessPartialSig ops ps = (some .invalidIndex, d) := by
      refine ProcessPartialSig_notFound ops d ps (findPub_eq_notFound _ _ ?_)
      unfold checkIndex at hI
      push_neg at hI
      exact hI h0
    exact ⟨fun _ => hP, fun hc => absurd hc hI, fun hc => absurd hc hI,
      fun hc => absurd hc hI, fun hc => absurd hc hI, fun hc => absurd hc hI⟩

theorem ProcessPartialSig_error_state (ops : SuiteOps Scalar Point) (d : DSS Scalar Point)
    (ps : PartialSig Scalar) (e : ProcErr)
    (h : (d.ProcessPartialSig ops ps).1 = some e) :
    (d.ProcessPartialSig ops ps).2 = d := by
  rcases hf : findPub d.participants ps.Partial.I with _ | _ | public
  · rw [ProcessPartialSig_oob ops d ps hf]
  · rw [ProcessPartialSig_notFound ops d ps hf]
  · rw [ProcessPartialSig_found ops d ps public hf] at h ⊢
    split_ifs at h ⊢ <;> first | rfl | simp_all

theorem ProcessPartialSig_ok_state (ops : SuiteOps Scalar Point) (d : DSS Scalar Point)
    (ps : PartialSig Scalar)
    (h : (d.ProcessPartialSig ops ps).1 = none) :
    (d.ProcessPartialSig ops ps).2 = acceptState d ps ∧ ps.Partial.I ∉ d.partialsIdx := by
  rcases hf : findPub d.participants ps.Partial.I with _ | _ | public
  · rw [ProcessPartialSig_oob ops d ps hf] at h; exact Option.noConfusion h
  · rw [ProcessPartialSig_notFound ops d ps hf] at h; exact Option.noConfusion h
  · rw [ProcessPartialSig_found ops d ps public hf] at h ⊢
    split_ifs at h ⊢ with h1 h2 h3 h4 <;> first | simp_all | exact ⟨rfl, h3⟩

theorem ProcessPartialSig_signed (ops : SuiteOps Scalar Point) (d : DSS Scalar Point)
    (ps : PartialSig Scalar) :
    (d.ProcessPartialSig ops ps).2.signed = d.signed := by
  cases h : (d.ProcessPartialSig ops ps).1 with
  | none => rw [(ProcessPartialSig_ok_state ops d ps h).1]; rfl
  | some e => rw [ProcessPartialSig_error_state ops d ps e h]

theorem PartialSig_state_signed (ops : SuiteOps Scalar Point) (d : DSS Scalar Point)
    (h : d.signed = true) : (d.PartialSig ops).2 = d := by
  unfold DSS.PartialSig
  simp [h]

theorem PartialSig_state_unsigned (ops : SuiteOps Scalar Point) (d : DSS Scalar Point)
    (h : d.signed = false) :
    ∃ v, (d.PartialSig ops).2 =
      { d with partialsIdx := d.index :: d.partialsIdx,
               partials := d.partials ++ [⟨d.index, v⟩],
               signed := true } := by
  unfold DSS.PartialSig
  simp [h]

/-- The session invariant tying the accepted-share list to the accepted-index
set: the list carries pairwise distinct indices, each of which is recorded in
the set. -/
def SetInv (d : DSS Scalar Point) : Prop :=
  (d.partials.map PriShare.I).Nodup ∧ ∀ p ∈ d.partials, p.I ∈ d.partialsIdx

theorem SetInv_process (ops : SuiteOps Scalar Point) (d : DSS Scalar Point)
    (ps : PartialSig Scalar) (h : SetInv d) :
    SetInv (d.ProcessPartialSig ops ps).2 := by
  cases hres : (d.ProcessPartialSig ops ps).1 with
  | some e => rw [ProcessPartialSig_error_state ops d ps e hres]; exact h
  | none =>
    obtain ⟨hstate, hnotdup⟩ := ProcessPartialSig_ok_state ops d ps hres
    rw [hstate]
    constructor
    · unfold acceptState
      simp only [List.map_append, List.map_cons, List.map_nil]
      rw [List.nodup_append]
      refine ⟨h.1, List.nodup_singleton _, ?_⟩
      intro a ha hb
      simp only [List.mem_singleton] at hb
      subst hb
      obtain ⟨p, hp, hpI⟩ := List.mem_map.mp ha
      exact hnotdup (hpI ▸ h.2 p hp)
    · intro p hp
      unfold acceptState at hp ⊢
      simp only [List.mem_append, List.mem_singleton] at hp
      rcases hp with hp | hp
      · exact List.mem_cons_of_mem _ (h.2 p hp)
      · subst hp
        exact List.mem_cons_self _ _

theorem SetInv_issue_signed (ops : SuiteOps Scalar Point) (d : DSS Scalar Point)
    (h : SetInv d) (hs : d.signed = true) :
    SetInv (d.PartialSig ops).2 ∧ (d.PartialSig ops).2.signed = true := by
  rw [PartialSig_state_signed ops d hs]
  exact ⟨h, hs⟩

theorem runOps_inv (ops : SuiteOps Scalar Point) :
    ∀ (l : List (Op Scalar)) (d : DSS Scalar Point), SetInv d → d.signed = true →
      SetInv (runOps ops d l) ∧ (runOps ops d l).signed = true := by
  intro l
  induction l with
  | nil => intro d h hs; exact ⟨h, hs⟩
  | cons op rest ih =>
    intro d h hs
    cases op with
    | issue =>
      simp only [runOps]
      rw [PartialSig_state_signed ops d hs]
      exact ih d h hs
    | process ps =>
      simp only [runOps]
      exact ih _ (SetInv_process ops d ps h)
        (by rw [ProcessPartialSig_signed]; exact hs)

theorem runOps_inv_noIssue (ops : SuiteOps Scalar Point) :
    ∀ (l : List (Op Scalar)) (d : DSS Scalar Point), SetInv d →
      (∀ op ∈ l, op.isIssue = false) → SetInv (runOps ops d l) := by
  intro l
  induction l with
  | nil => intro d h _; exact h
  | cons op rest ih =>
    intro d h hni
    cases op with
    | issue => exact absurd (hni _ (List.mem_cons_self _ _)) (by simp [Op.isIssue])
    | process ps =>
      simp only [runOps]
      exact ih _ (SetInv_process ops d ps h)
        (fun op hop => hni op (List.mem_cons_of_mem _ hop))

/-- The state reached by issuing once from `dEx` (one accepted share). -/
def dExS : DSS Int Int := (dEx.PartialSig opsInt).2

/-- Claim C1, counterexample: a freshly constructed session that first accepts
a valid submission at its own index (its own partial signature, echoed back)
and then performs local issuance ends up holding two accepted shares for
index 0 — `PartialSig` guards recording only on the `signed` flag, not on the
accepted-index set. -/
theorem C1_counterexample :
    NewDSS opsInt 2 [2] ⟨⟨0, 3⟩, [3]⟩ ⟨⟨0, 4⟩, [4]⟩ [] 1 = some dEx ∧
    (dEx.ProcessPartialSig opsInt psEx).1 = none ∧
    ((runOps opsInt dEx [.process psEx, .issue]).partials.map PriShare.I) = [0, 0] ∧
    ¬ ((runOps opsInt dEx [.process psEx, .issue]).partials.map PriShare.I).Nodup :=
  ⟨by decide, by decide, by decide, by decide⟩

/-- Claim C1 (amended): for every freshly constructed session, the accepted
list never holds two shares with the same index (a) along any operation
sequence that begins with local issuance — in particular repeated issuance
records the owner's share exactly once — and (b) along any sequence of
submissions containing no local issuance.  (The unrestricted claim fails when
a submission at the owner's own index is accepted before the first issuance,
see the counterexample.) -/
theorem C1_accepted_index_uniqueness (ops : SuiteOps Scalar Point) (secret : Scalar)
    (participants : List Point) (long random : DistKeyShare Scalar Point) (msg : Bytes)
    (T : Int) (d0 : DSS Scalar Point)
    (h : NewDSS ops secret participants long random msg T = some d0) (l : List (Op Scalar)) :
    ((runOps ops d0 (Op.issue :: l)).partials.map PriShare.I).Nodup ∧
      ((∀ op ∈ l, op.isIssue = false) →
        ((runOps ops d0 l).partials.map PriShare.I).Nodup) := by
  obtain ⟨k, _, hd0⟩ := NewDSS_fields ops secret participants long random msg T d0 h
  have hfresh : d0.partials = [] ∧ d0.partialsIdx = [] ∧ d0.signed = false := by
    rw [hd0]; exact ⟨rfl, rfl, rfl⟩
  have hinv : SetInv d0 := by
    constructor
    · rw [hfresh.1]; exact List.nodup_nil
    · intro p hp; rw [hfresh.1] at hp; exact absurd hp (List.not_mem_nil p)
  constructor
  · have hinv1 : SetInv (d0.PartialSig ops).2 ∧ (d0.PartialSig ops).2.signed = true := by
      obtain ⟨v, hstate⟩ := PartialSig_state_unsigned ops d0 hfresh.2.2
      rw [hstate]
      refine ⟨⟨?_, ?_⟩, rfl⟩
      · rw [hfresh.1]; simp
      · intro p hp
        rw [hfresh.1] at hp
        simp only [List.nil_append, List.mem_singleton] at hp
        subst hp
        exact List.mem_cons_self _ _
    simp only [runOps]
    exact (runOps_inv ops l _ hinv1.1 hinv1.2).1.1
  · intro hni
    exact (runOps_inv_noIssue ops l d0 hinv hni).1

/-- Witness for C1's amended theorem at the concrete session `dEx`. -/
theorem C1_witness :
    ((runOps opsInt dEx [Op.issue]).partials.map PriShare.I).Nodup ∧
      ((∀ op ∈ ([] : List (Op Int)), op.isIssue = false) →
        ((runOps opsInt dEx []).partials.map PriShare.I).Nodup) :=
  C1_accepted_index_uniqueness opsInt 2 [2] ⟨⟨0, 3⟩, [3]⟩ ⟨⟨0, 4⟩, [4]⟩ [] 1 dEx
    (by decide) []

/-- Claim C2, counterexample: for a submission with a negative index the code
does not short-circuit with the invalid-index error — the bounds check misses
negative values and the registry lookup crashes. -/
theorem C2_counterexample :
    dEx.ProcessPartialSig opsInt psNeg = (some ProcErr.outOfBoundsPanic, dEx) ∧
      ProcErr.outOfBoundsPanic ≠ ProcErr.invalidIndex :=
  ⟨by decide, by decide⟩

/-- Claim C2 (amended): for every submission with a non-negative index,
`ProcessPartialSig` performs the five checks in the order index-in-range,
tag-verification, session-id equality, index-not-already-accepted, algebraic
validity; it short-circuits with the corresponding error on the first failing
check, leaving the session state untouched, and on success inserts the index
into the accepted set and appends the share to the accepted list.  (Negative
indices crash in the registry lookup instead of producing the invalid-index
error, see the counterexample.) -/
theorem C2_check_order (ops : SuiteOps Scalar Point) (d : DSS Scalar Point)
    (ps : PartialSig Scalar) (h0 : 0 ≤ ps.Partial.I) :
    (¬ checkIndex d ps → d.ProcessPartialSig ops ps = (some .invalidIndex, d)) ∧
    (checkIndex d ps → ¬ checkSig ops d ps →
      d.ProcessPartialSig ops ps = (some .invalidSignature, d)) ∧
    (checkIndex d ps → checkSig ops d ps → ¬ checkSession d ps →
      d.ProcessPartialSig ops ps = (some .sessionMismatch, d)) ∧
    (checkIndex d ps → checkSig ops d ps → checkSession d ps → ¬ checkNotDup d ps →
      d.ProcessPartialSig ops ps = (some .alreadyReceived, d)) ∧
    (checkIndex d ps → checkSig ops d ps → checkSession d ps → checkNotDup d ps →
      ¬ checkAlgebra ops d ps → d.ProcessPartialSig ops ps = (some .invalidPartial, d)) ∧
    (checkIndex d ps → checkSig ops d ps → checkSession d ps → checkNotDup d ps →
      checkAlgebra ops d ps → d.ProcessPartialSig ops ps = (none, acceptState d ps)) :=
  ProcessPartialSig_cases ops d ps h0

/-- Witness for C2's amended theorem at the concrete session `dEx` and the
valid submission `psEx`. -/
theorem C2_witness :
    (¬ checkIndex dEx psEx → dEx.ProcessPartialSig opsInt psEx = (some .invalidIndex, dEx)) ∧
    (checkIndex dEx psEx → ¬ checkSig opsInt dEx psEx →
      dEx.ProcessPartialSig opsInt psEx = (some .invalidSignature, dEx)) ∧
    (checkIndex dEx psEx → checkSig opsInt dEx psEx → ¬ checkSession dEx psEx →
      dEx.ProcessPartialSig opsInt psEx = (some .sessionMismatch, dEx)) ∧
    (checkIndex dEx psEx → checkSig opsInt dEx psEx → checkSession dEx psEx →
      ¬ checkNotDup dEx psEx →
      dEx.ProcessPartialSig opsInt psEx = (some .alreadyReceived, dEx)) ∧
    (checkIndex dEx psEx → checkSig opsInt dEx psEx → checkSession dEx psEx →
      checkNotDup dEx psEx → ¬ checkAlgebra opsInt dEx psEx →
      dEx.ProcessPartialSig opsInt psEx = (some .invalidPartial, dEx)) ∧
    (checkIndex dEx psEx → checkSig opsInt dEx psEx → checkSession dEx psEx →
      checkNotDup dEx psEx → checkAlgebra opsInt dEx psEx →
      dEx.ProcessPartialSig opsInt psEx = (none, acceptState dEx psEx)) :=
  C2_check_order opsInt dEx psEx (by decide)

/-- Claim C3: `findPub` is not total — for a negative index the guard
`i >= len(list)` does not fire and the lookup `list[i]` is an out-of-bounds
access, so `ProcessPartialSig` crashes instead of returning the invalid-index
error. -/
theorem C3_findPub_negative_index :
    findPub ([2] : List Int) (-1) = FindPubResult.outOfBoundsPanic ∧
      (dEx.ProcessPartialSig opsInt psNeg).1 = some ProcErr.outOfBoundsPanic ∧
      (dEx.ProcessPartialSig opsInt psNeg).1 ≠ some ProcErr.invalidIndex :=
  ⟨by decide, by decide, by decide⟩

/-- Claim C4: a submission that reaches the algebraic-validity step (checks
1–4 pass) is accepted exactly when
`response·base = (ephemeral poly at index) + challenge·(long-term poly at index)`
(point addition written in the order the code computes it), and otherwise is
rejected with the invalid-partial-value error. -/
theorem C4_algebraic_validity (ops : SuiteOps Scalar Point) (d : DSS Scalar Point)
    (ps : PartialSig Scalar) (h1 : checkIndex d ps) (h2 : checkSig ops d ps)
    (h3 : checkSession d ps) (h4 : checkNotDup d ps) :
    (d.ProcessPartialSig ops ps = (none, acceptState d ps) ↔ checkAlgebra ops d ps) ∧
      (¬ checkAlgebra ops d ps →
        d.ProcessPartialSig ops ps = (some .invalidPartial, d)) := by
  obtain ⟨-, -, -, -, c5, c6⟩ := ProcessPartialSig_cases ops d ps h1.1
  refine ⟨⟨?_, fun ha => c6 h1 h2 h3 h4 ha⟩, fun hna => c5 h1 h2 h3 h4 hna⟩
  intro hok
  by_contra hna
  have hbad := c5 h1 h2 h3 h4 hna
  rw [hok] at hbad
  have := congrArg Prod.fst hbad
  simp at this

/-- Witness for C4 at the concrete session `dEx` and submission `psEx`. -/
theorem C4_witness :
    (dEx.ProcessPartialSig opsInt psEx = (none, acceptState dEx psEx) ↔
      checkAlgebra opsInt dEx psEx) ∧
    (¬ checkAlgebra opsInt dEx psEx →
      dEx.ProcessPartialSig opsInt psEx = (some .invalidPartial, dEx)) :=
  C4_algebraic_validity opsInt dEx psEx (by decide) (by decide) (by decide) (by decide)

/-- Claim C5: the threshold predicate is a pure boolean function returning
true exactly when the accepted count reaches `T`, and recovery below the
threshold fails with the insufficient-shares error, producing no value. -/
theorem C5_threshold_and_insufficient (ops : SuiteOps Scalar Point)
    (d : DSS Scalar Point) :
    (d.EnoughPartialSig = true ↔ d.T ≤ (d.partials.length : Int)) ∧
      ((d.partials.length : Int) < d.T →
        d.Signature ops = .error .notEnough) := by
  constructor
  · simp [DSS.EnoughPartialSig]
  · intro hlt
    have hfalse : d.EnoughPartialSig = false := by
      simp only [DSS.EnoughPartialSig, decide_eq_false_iff_not]
      omega
    unfold DSS.Signature
    rw [if_pos hfalse]

/-- Witness for C5 at the fresh concrete session `dEx` (zero accepted shares,
threshold one). -/
theorem C5_witness :
    dEx.Signature opsInt = .error .notEnough ∧
      (dEx.EnoughPartialSig = true ↔ dEx.T ≤ (dEx.partials.length : Int)) :=
  ⟨(C5_threshold_and_insufficient opsInt dEx).2 (by decide),
   (C5_threshold_and_insufficient opsInt dEx).1⟩

/-- Claim C6: when the threshold predicate holds and reconstruction succeeds
with scalar `gamma`, the recovered signature is exactly the serialization of
the 0th ephemeral commitment followed by the serialization of `gamma`. -/
theorem C6_signature_layout (ops : SuiteOps Scalar Point) (d : DSS Scalar Point)
    (gamma : Scalar) (h1 : d.EnoughPartialSig = true)
    (h2 : ops.recoverSecret d.partials d.T (d.participants.length : Int) = some gamma) :
    d.Signature ops =
      .ok (ops.marshalP d.random.commitments.headI ++ ops.marshalS gamma) := by
  unfold DSS.Signature
  rw [if_neg (by simp [h1]), h2]

/-- Witness for C6 at the session `dExS` holding one accepted share. -/
theorem C6_witness : dExS.Signature opsInt = .ok [4, 25] :=
  C6_signature_layout opsInt dExS 25 (by decide) (by decide)

/-- Claim C7: construction fails exactly when the derived public point
`secret·base` is absent from the participant list, and otherwise resolves the
own index to the position of the first matching point. -/
theorem C7_construction (ops : SuiteOps Scalar Point) (secret : Scalar)
    (participants : List Point) (long random : DistKeyShare Scalar Point)
    (msg : Bytes) (T : Int) :
    (NewDSS ops secret participants long random msg T = none ↔
      ops.smul secret ops.base ∉ participants) ∧
    (∀ d0, NewDSS ops secret participants long random msg T = some d0 →
      ∃ (k : Nat) (hk : k < participants.length),
        d0.index = (k : Int) ∧
        participants.get ⟨k, hk⟩ = ops.smul secret ops.base ∧
        ∀ j (hj : j < participants.length), j < k →
          participants.get ⟨j, hj⟩ ≠ ops.smul secret ops.base) := by
  constructor
  · cases hf : findPubIdx (ops.smul secret ops.base) participants with
    | none =>
      have hmem := (findPubIdx_eq_none_iff _ _).mp hf
      exact ⟨fun _ => hmem, fun _ => by unfold NewDSS; simp only [hf]⟩
    | some k =>
      have hmem : ops.smul secret ops.base ∈ participants := by
        by_contra hm
        rw [(findPubIdx_eq_none_iff _ _).mpr hm] at hf
        exact Option.noConfusion hf
      constructor
      · intro hnone
        unfold NewDSS at hnone
        simp only [hf] at hnone
        exact Option.noConfusion hnone
      · intro hnotmem
        exact absurd hmem hnotmem
  · intro d0 h
    obtain ⟨k, hk, hd0⟩ := NewDSS_fields ops secret participants long random msg T d0 h
    obtain ⟨hlt, hget, hfirst⟩ := findPubIdx_spec _ participants k hk
    exact ⟨k, hlt, by rw [hd0], hget, fun j hj hjk => hfirst j hj hjk⟩

/-- Witness for C7: the session `dEx` resolves index 0, the first (and only)
position holding its public point. -/
theorem C7_witness :
    ∃ (k : Nat) (hk : k < ([2] : List Int).length),
      dEx.index = (k : Int) ∧
      ([2] : List Int).get ⟨k, hk⟩ = opsInt.smul 2 opsInt.base ∧
      ∀ j (hj : j < ([2] : List Int).length), j < k →
        ([2] : List Int).get ⟨j, hj⟩ ≠ opsInt.smul 2 opsInt.base :=
  (C7_construction opsInt 2 [2] ⟨⟨0, 3⟩, [3]⟩ ⟨⟨0, 4⟩, [4]⟩ [] 1).2 dEx (by decide)

/-- Claim C8, counterexample: two different (long-term, ephemeral)
commitment-list pairs whose concatenated serializations agree — `([5,6],[7])`
versus `([5],[6,7])` — give byte-equal session identifiers with certainty,
for the constructed sessions as well. -/
theorem C8_counterexample :
    ((⟨⟨0, 0⟩, [5, 6]⟩ : DistKeyShare Int Int), (⟨⟨0, 0⟩, [7]⟩ : DistKeyShare Int Int)) ≠
      ((⟨⟨0, 0⟩, [5]⟩ : DistKeyShare Int Int), (⟨⟨0, 0⟩, [6, 7]⟩ : DistKeyShare Int Int)) ∧
    sessionID opsInt ⟨⟨0, 0⟩, [5, 6]⟩ ⟨⟨0, 0⟩, [7]⟩ =
      sessionID opsInt ⟨⟨0, 0⟩, [5]⟩ ⟨⟨0, 0⟩, [6, 7]⟩ ∧
    ((NewDSS opsInt 2 [2] ⟨⟨0, 0⟩, [5, 6]⟩ ⟨⟨0, 0⟩, [7]⟩ [] 1).map (fun d => d.sessionID) =
      (NewDSS opsInt 2 [2] ⟨⟨0, 0⟩, [5]⟩ ⟨⟨0, 0⟩, [6, 7]⟩ [] 1).map (fun d => d.sessionID)) ∧
    (NewDSS opsInt 2 [2] ⟨⟨0, 0⟩, [5, 6]⟩ ⟨⟨0, 0⟩, [7]⟩ [] 1).isSome = true :=
  ⟨by decide, by decide, by decide, by decide⟩

/-- Claim C8 (amended): the session identifier is a deterministic function of
the two ordered commitment lists — equal lists give byte-equal identifiers —
and, for an injective (collision-free) hash, pairs whose concatenated
serialized commitment streams differ give different identifiers; pairs that
differ only in where the concatenated stream is split collide with certainty
(see the counterexample). -/
theorem C8_sessionID_function (ops : SuiteOps Scalar Point)
    (hinj : Function.Injective ops.hashBytes) (a b c e : DistKeyShare Scalar Point) :
    (a.commitments = c.commitments → b.commitments = e.commitments →
      sessionID ops a b = sessionID ops c e) ∧
    ((a.commitments.map ops.marshalP).flatten ++ (b.commitments.map ops.marshalP).flatten ≠
        (c.commitments.map ops.marshalP).flatten ++ (e.commitments.map ops.marshalP).flatten →
      sessionID ops a b ≠ sessionID ops c e) := by
  constructor
  · intro h1 h2
    unfold sessionID
    rw [h1, h2]
  · intro hne heq
    unfold sessionID at heq
    exact hne (hinj heq)

/-- Witness for C8's amended theorem over the injective concrete hash. -/
theorem C8_witness :
    sessionID opsInt ⟨⟨0, 0⟩, [5]⟩ ⟨⟨0, 0⟩, [6]⟩ ≠
      sessionID opsInt ⟨⟨0, 0⟩, [5]⟩ ⟨⟨0, 0⟩, [7]⟩ ∧
    sessionID opsInt ⟨⟨0, 0⟩, [5]⟩ ⟨⟨0, 0⟩, [6]⟩ =
      sessionID opsInt ⟨⟨0, 0⟩, [5]⟩ ⟨⟨0, 0⟩, [6]⟩ :=
  ⟨(C8_sessionID_function opsInt (fun _ _ hxy => hxy) ⟨⟨0, 0⟩, [5]⟩ ⟨⟨0, 0⟩, [6]⟩
      ⟨⟨0, 0⟩, [5]⟩ ⟨⟨0, 0⟩, [7]⟩).2 (by decide),
   (C8_sessionID_function opsInt (fun _ _ hxy => hxy) ⟨⟨0, 0⟩, [5]⟩ ⟨⟨0, 0⟩, [6]⟩
      ⟨⟨0, 0⟩, [5]⟩ ⟨⟨0, 0⟩, [6]⟩).1 rfl rfl⟩

/-- Claim C9, counterexample: when the tag-signing primitive reports an error,
`PartialSig` still returns that error to the caller *after* recording the own
share — an error with a state mutation. -/
theorem C9_counterexample :
    (dEx.PartialSig opsIntFail).1.2 = some () ∧ (dEx.PartialSig opsIntFail).2 ≠ dEx :=
  ⟨by decide, by decide⟩

/-- Claim C9 (amended): `ProcessPartialSig` never mutates the session state on
any error (and `Signature` reads but never writes session state, `NewDSS` on
failure yields no session at all); the one exception to the claim is
`PartialSig`, which records the local share even when tag-signing errors. -/
theorem C9_error_no_mutation (ops : SuiteOps Scalar Point) (d : DSS Scalar Point)
    (ps : PartialSig Scalar) (e : ProcErr)
    (h : (d.ProcessPartialSig ops ps).1 = some e) :
    (d.ProcessPartialSig ops ps).2 = d :=
  ProcessPartialSig_error_state ops d ps e h

/-- Witness for C9's amended theorem: the crashing submission leaves `dEx`
unchanged. -/
theorem C9_witness : (dEx.ProcessPartialSig opsInt psNeg).2 = dEx :=
  C9_error_no_mutation opsInt dEx psNeg ProcErr.outOfBoundsPanic (by decide)

/-- Claim C10: `NewDSS` performs no validation of `T`: whenever the derived
public point is found, construction succeeds for every integer `T`, the
session stores `T` unchanged, the threshold predicate compares against that
`T` as-is, and for `T ≤ 0` a fresh session already passes the threshold and
recovery proceeds past the insufficient-shares guard. -/
theorem C10_threshold_unvalidated (ops : SuiteOps Scalar Point) (secret : Scalar)
    (participants : List Point) (long random : DistKeyShare Scalar Point)
    (msg : Bytes) (T : Int) (hmem : ops.smul secret ops.base ∈ participants) :
    ∃ d0, NewDSS ops secret participants long random msg T = some d0 ∧ d0.T = T ∧
      (d0.EnoughPartialSig = true ↔ T ≤ (d0.partials.length : Int)) ∧
      (T ≤ 0 → d0.EnoughPartialSig = true ∧ d0.Signature ops ≠ .error .notEnough) := by
  cases hf : findPubIdx (ops.smul secret ops.base) participants with
  | none => exact absurd ((findPubIdx_eq_none_iff _ _).mp hf) (not_not_intro hmem)
  | some k =>
    refine ⟨{ secret := secret, public := ops.smul secret ops.base, index := (k : Int),
              participants := participants, T := T, long := long, random := random,
              msg := msg, partials := [], partialsIdx := [], signed := false,
              sessionID := sessionID ops long random }, ?_, rfl, ?_, ?_⟩
    · unfold NewDSS
      simp only [hf]
    · simp [DSS.EnoughPartialSig]
    · intro hT
      have henough : DSS.EnoughPartialSig
          { secret := secret, public := ops.smul secret ops.base, index := (k : Int),
            participants := participants, T := T, long := long, random := random,
            msg := msg, partials := [], partialsIdx := [], signed := false,
            sessionID := sessionID ops long random } = true := by
        simp [DSS.EnoughPartialSig]
        omega
      refine ⟨henough, ?_⟩
      unfold DSS.Signature
      rw [if_neg (by simp [henough])]
      cases ops.recoverSecret [] T (participants.length : Int) <;> simp

/-- Witness for C10 with the nonsensical threshold `-5`. -/
theorem C10_witness :
    ∃ d0, NewDSS opsInt 2 [2] ⟨⟨0, 3⟩, [3]⟩ ⟨⟨0, 4⟩, [4]⟩ [] (-5) = some d0 ∧
      d0.T = -5 ∧
      (d0.EnoughPartialSig = true ↔ (-5 : Int) ≤ (d0.partials.length : Int)) ∧
      ((-5 : Int) ≤ 0 → d0.EnoughPartialSig = true ∧
        d0.Signature opsInt ≠ .error .notEnough) :=
  C10_threshold_unvalidated opsInt 2 [2] ⟨⟨0, 3⟩, [3]⟩ ⟨⟨0, 4⟩, [4]⟩ [] (-5) (by decide)

end DSSGo
